import Mathlib

/-!
Shallow embedding of `core/types/block.go` (package `types`): the Header and
Block data model, header hashing with and without the proof-of-work fields,
the block mutators that keep derived header fields in sync, the wire
decoder with its optional total-difficulty field, and block sorting.

External collaborators (`common`, `crypto`, `rlp`, `sort`, `DeriveSha`,
`CreateBloom`) are not part of the repository sources; they are modelled
from the spec where a claim depends on them, each such definition carrying
a `Modelled from the spec:` doc comment.
-/

namespace Geth

/-- Model of `common.Hash` (256-bit hash). Modelled as an unbounded natural number;
the zero value `0` plays the role of the all-zero `common.Hash{}`. -/
abbrev Hash := Nat

/-- Model of `common.Address` (20-byte address), modelled as a natural number. -/
abbrev Address := Nat

/-- Model of `types.Bloom` (fixed-size log-bloom bit-vector), modelled as a natural
number whose binary digits are the bloom bits. -/
abbrev Bloom := Nat

/-- A transaction is opaque to this core beyond a stable identity and a
canonical encoding (spec section 6); modelled as a wrapped natural number. -/
structure Transaction where
  val : Nat
deriving DecidableEq, Repr

/-- Model of `types.Transactions` (`[]*Transaction`). -/
abbrev Transactions := List Transaction

/-- A receipt is opaque to this core; it carries an identity and its log
bloom (the only parts the block logic consumes). -/
structure Receipt where
  val : Nat
  bloom : Bloom
deriving DecidableEq, Repr

/-- Model of `types.Receipts` (`[]*Receipt`). -/
abbrev Receipts := List Receipt

/-- Modelled from the spec: a canonical-encoder field tree (spec section 4.1) —
an ordered field is a scalar, a byte string, or a nested list of fields.
This is the shape-level view of the `rlp` package's value space; the
byte-level serialization (length prefixes, minimal big-endian scalars) is the
external encoder's lossless contract and is abstracted away. -/
inductive Rlp where
  | nat : Nat → Rlp
  | str : String → Rlp
  | list : List Rlp → Rlp
deriving Repr

/-- Injective fold of a list of naturals into one natural, used to build the
ideal hash model. -/
def natListEnc : List Nat → Nat
  | [] => 0
  | n :: ns => Nat.pair n (natListEnc ns) + 1

/-- Injective code of a string, via its character codes. -/
def strEnc (s : String) : Nat :=
  natListEnc (s.data.map Char.toNat)

/-- Modelled from the spec: a Gödel-style injective code of a field tree.
The spec's Canonical Encoder contract (section 4.1) demands that distinct
field-value sequences never produce the same encoding; this realizes that
losslessness directly. -/
def Rlp.enc : Rlp → Nat
  | .nat n => Nat.pair 0 n
  | .str s => Nat.pair 1 (strEnc s)
  | .list [] => Nat.pair 2 0
  | .list (r :: rs) => Nat.pair 3 (Nat.pair r.enc (Rlp.enc (.list rs)))

/-- Modelled from the spec: `crypto.Sha3` composed with `common.Encode`,
idealized as a collision-free digest (spec section 6 asks for a
collision-resistant primitive; the claims themselves carve out the
collision case, so the ideal model makes that case vacuous). -/
def Sha3 (r : Rlp) : Hash := Nat.pair 6 (Rlp.enc r)

/-- Model of `types.Header`: the fixed-shape block metadata record. Field names and
order follow the source. `Nonce [8]byte` is modelled by the natural number
its eight big-endian bytes denote. -/
structure Header where
  ParentHash : Hash
  UncleHash : Hash
  Coinbase : Address
  Root : Hash
  TxHash : Hash
  ReceiptHash : Hash
  Bloom : Bloom
  Difficulty : Nat
  Number : Nat
  GasLimit : Nat
  GasUsed : Nat
  Time : Nat
  Extra : String
  MixDigest : Hash
  Nonce : Nat
deriving DecidableEq, Repr

/-- Source `Header.rlpData(withNonce)`: the thirteen always-present fields, in
declared order, with `MixDigest` and `Nonce` appended when `withNonce`. -/
def Header.rlpData (self : Header) (withNonce : Bool) : List Rlp :=
  let fields : List Rlp := [
    .nat self.ParentHash,
    .nat self.UncleHash,
    .nat self.Coinbase,
    .nat self.Root,
    .nat self.TxHash,
    .nat self.ReceiptHash,
    .nat self.Bloom,
    .nat self.Difficulty,
    .nat self.Number,
    .nat self.GasLimit,
    .nat self.GasUsed,
    .nat self.Time,
    .str self.Extra]
  if withNonce then fields ++ [.nat self.MixDigest, .nat self.Nonce]
  else fields

/-- Source `Header.RlpData()`: the full field list (with nonce), as one encodable
list value. -/
def Header.RlpData (self : Header) : Rlp :=
  .list (self.rlpData true)

/-- Source `Header.Hash()`: digest of the canonical encoding of the full field
list, including `MixDigest` and `Nonce`. -/
def Header.Hash (self : Header) : Hash :=
  Sha3 (.list (self.rlpData true))

/-- Source `Header.HashNoNonce()`: digest of the canonical encoding of the field
list without `MixDigest` and `Nonce`. -/
def Header.HashNoNonce (self : Header) : Geth.Hash :=
  Sha3 (.list (self.rlpData false))

/-- Source `Header.SetNonce(nonce uint64)`: stores the 64-bit value into the
8-byte nonce field (big-endian in the source; value-level here). -/
def Header.SetNonce (self : Header) (nonce : Nat) : Header :=
  { self with Nonce := nonce % 2 ^ 64 }

/-- Modelled from the spec: `DeriveSha` instantiated at transaction lists —
the external `OrderedRootDigest` collaborator (spec section 6), idealized as
a collision-free root digest. Tagged so that its range is disjoint from
`Sha3`'s, and it never produces the all-zero sentinel hash (a real digest
output coincides with the zero hash only with negligible probability). -/
def DeriveShaTxs (txs : Transactions) : Hash :=
  Nat.pair 4 (natListEnc (txs.map Transaction.val))

/-- Modelled from the spec: `DeriveSha` instantiated at receipt lists. -/
def DeriveShaReceipts (rs : Receipts) : Hash :=
  Nat.pair 5 (natListEnc (rs.map fun r => Nat.pair r.val r.bloom))

/-- Modelled from the spec: `CreateBloom` — the external `AggregateBloom`
collaborator, the union (bitwise or) of the per-receipt log blooms. -/
def CreateBloom (rs : Receipts) : Bloom :=
  rs.foldl (fun acc r => acc ||| r.bloom) 0

/-- Model of `types.Block`: header plus uncle headers, transactions, optional total
difficulty, receipts and reward, and the two mock override hash fields.
Go's nil `*big.Int` for an absent total difficulty is `none` here. -/
structure Block where
  HeaderHash : Hash
  ParentHeaderHash : Hash
  header : Header
  uncles : List Header
  transactions : Transactions
  Td : Option Nat
  receipts : Receipts
  Reward : Nat
deriving DecidableEq, Repr

/-- Source `NewBlock`: a fresh block from parent hash, coinbase, state root,
difficulty, nonce and extra data. The source reads the creation time from
`time.Now()`; that ambient input is passed explicitly as `time` here. All
header fields the source leaves at their zero value (including `TxHash`,
`ReceiptHash`, `UncleHash`, `Bloom`, `Number`, `MixDigest`) are zero. -/
def NewBlock (parentHash : Hash) (coinbase : Address) (root : Hash)
    (difficulty : Nat) (nonce : Nat) (extra : String) (time : Nat) : Block :=
  let header : Header :=
    { ParentHash := parentHash
      UncleHash := 0
      Coinbase := coinbase
      Root := root
      TxHash := 0
      ReceiptHash := 0
      Bloom := 0
      Difficulty := difficulty
      Number := 0
      GasLimit := 0
      GasUsed := 0
      Time := time
      Extra := extra
      MixDigest := 0
      Nonce := 0 }
  let header := header.SetNonce nonce
  { HeaderHash := 0, ParentHeaderHash := 0, header := header, uncles := [],
    transactions := [], Td := none, receipts := [], Reward := 0 }

/-- Source `NewBlockWithHeader`: a block from an already-built header, all lists
empty and the remaining fields at their zero values. -/
def NewBlockWithHeader (header : Header) : Block :=
  { HeaderHash := 0, ParentHeaderHash := 0, header := header, uncles := [],
    transactions := [], Td := none, receipts := [], Reward := 0 }

/-- Source `Block.SetUncles`: replaces the uncle list and recomputes
`header.UncleHash` as the digest of the canonical encoding of the new list
(each uncle encoded as its full field list). -/
def Block.SetUncles (self : Block) (uncleHeaders : List Header) : Block :=
  { self with
    uncles := uncleHeaders
    header := { self.header with
      UncleHash := Sha3 (.list (uncleHeaders.map Header.RlpData)) } }

/-- Source `Block.SetTransactions`: replaces the transaction list and recomputes
`header.TxHash` via the root-digest collaborator. -/
def Block.SetTransactions (self : Block) (transactions : Transactions) : Block :=
  { self with
    transactions := transactions
    header := { self.header with TxHash := DeriveShaTxs transactions } }

/-- Source `Block.AddTransaction`: appends one transaction, then re-runs
`SetTransactions` on the appended list. -/
def Block.AddTransaction (self : Block) (transaction : Transaction) : Block :=
  Block.SetTransactions { self with
    transactions := self.transactions ++ [transaction] }
    (self.transactions ++ [transaction])

/-- Source `Block.SetReceipts`: replaces the receipt list and recomputes both
`header.ReceiptHash` and `header.Bloom`. -/
def Block.SetReceipts (self : Block) (receipts : Receipts) : Block :=
  { self with
    receipts := receipts
    header := { self.header with
      ReceiptHash := DeriveShaReceipts receipts
      Bloom := CreateBloom receipts } }

/-- Source `Block.AddReceipt`: appends one receipt, then re-runs `SetReceipts`. -/
def Block.AddReceipt (self : Block) (receipt : Receipt) : Block :=
  Block.SetReceipts { self with receipts := self.receipts ++ [receipt] }
    (self.receipts ++ [receipt])

/-- Source `Block.GetTransaction(i)`: the i-th transaction when the list is long
enough, nil (`none`) otherwise. -/
def Block.GetTransaction (self : Block) (i : Nat) : Option Transaction :=
  if self.transactions.length > i then self.transactions[i]? else none

/-- Source `Block.GetUncle(i)`: the i-th uncle header when the list is long
enough, nil (`none`) otherwise. -/
def Block.GetUncle (self : Block) (i : Nat) : Option Header :=
  if self.uncles.length > i then self.uncles[i]? else none

/-- Source `Block.HashNoNonce()`: always the header's no-nonce digest. -/
def Block.HashNoNonce (self : Block) : Geth.Hash :=
  self.header.HashNoNonce

/-- Source `Block.Hash()`: the preset mock hash when it is non-zero, else the
header's own digest. -/
def Block.Hash (self : Block) : Geth.Hash :=
  if self.HeaderHash ≠ (0 : Geth.Hash) then self.HeaderHash
  else self.header.Hash

/-- Encoding of a transaction list as one canonical-encoder list value. -/
def txsRlp (txs : Transactions) : Rlp :=
  .list (txs.map fun t => .nat t.val)

/-- Encoding of an uncle-header list as one canonical-encoder list value. -/
def unclesRlp (uncles : List Header) : Rlp :=
  .list (uncles.map Header.RlpData)

/-- Source `Block.RlpData()`: the network form `[header, transactions, uncles]`. -/
def Block.RlpData (self : Block) : Rlp :=
  .list [self.header.RlpData, txsRlp self.transactions, unclesRlp self.uncles]

/-- Source `Block.RlpDataForStorage()`: the storage form
`[header, transactions, uncles, totalDifficulty]`; a nil total difficulty
encodes as the zero scalar, as the external encoder does for a nil big
integer. -/
def Block.RlpDataForStorage (self : Block) : Rlp :=
  .list [self.header.RlpData, txsRlp self.transactions, unclesRlp self.uncles,
    .nat (self.Td.getD 0)]

/-- Modelled from the spec: the `rlp` package's decode of a `*Header` —
accepts exactly the shape produced by the header's canonical field list
(fifteen fields of the declared kinds, in order) and recovers the fields. -/
def decodeHeader : Rlp → Except String Header
  | .list [.nat parentHash, .nat uncleHash, .nat coinbase, .nat root,
      .nat txHash, .nat receiptHash, .nat bloom, .nat difficulty,
      .nat number, .nat gasLimit, .nat gasUsed, .nat time, .str extra,
      .nat mixDigest, .nat nonce] =>
    .ok ⟨parentHash, uncleHash, coinbase, root, txHash, receiptHash, bloom,
      difficulty, number, gasLimit, gasUsed, time, extra, mixDigest, nonce⟩
  | _ => .error "rlp: malformed header"

/-- Modelled from the spec: decode of one transaction (opaque scalar
encoding). -/
def decodeTx : Rlp → Except String Transaction
  | .nat v => .ok ⟨v⟩
  | _ => .error "rlp: malformed transaction"

/-- Modelled from the spec: decode of a `[]*Transaction` element list. -/
def decodeTxList : List Rlp → Except String Transactions
  | [] => .ok []
  | r :: rs => do
    let t ← decodeTx r
    let ts ← decodeTxList rs
    .ok (t :: ts)

/-- Modelled from the spec: decode of a `[]*Header` element list. -/
def decodeUncleList : List Rlp → Except String (List Header)
  | [] => .ok []
  | r :: rs => do
    let h ← decodeHeader r
    let hs ← decodeUncleList rs
    .ok (h :: hs)

/-- The anonymous `extblock` struct of `Block.DecodeRLP`: header,
transactions, uncles, and the optional total difficulty. -/
structure Extblock where
  header : Header
  txs : Transactions
  uncles : List Header
  td : Option Nat
deriving DecidableEq, Repr

/-- Modelled from the spec: `rlp.Stream.Decode` into `extblock` — the input
must be a three-element list `{header, transactions, uncles}` or a
four-element list additionally carrying the total difficulty scalar; any
other shape or field kind is a malformed encoding. -/
def decodeExtblock : Rlp → Except String Extblock
  | .list [h, txs, us] => do
    let header ← decodeHeader h
    let ts ← match txs with
      | .list rs => decodeTxList rs
      | _ => .error "rlp: malformed transaction list"
    let uncles ← match us with
      | .list rs => decodeUncleList rs
      | _ => .error "rlp: malformed uncle list"
    .ok ⟨header, ts, uncles, none⟩
  | .list [h, txs, us, .nat td] => do
    let header ← decodeHeader h
    let ts ← match txs with
      | .list rs => decodeTxList rs
      | _ => .error "rlp: malformed transaction list"
    let uncles ← match us with
      | .list rs => decodeUncleList rs
      | _ => .error "rlp: malformed uncle list"
    .ok ⟨header, ts, uncles, some td⟩
  | _ => .error "rlp: malformed block"

/-- Source `Block.DecodeRLP`: decodes the stream into the `extblock` temporary; on
success overwrites the receiver's header, uncle, transaction and total
difficulty fields, on failure returns the decode error before touching the
receiver. The Go method mutates `self` and returns an error; here it
returns the receiver's final state paired with the optional error. -/
def Block.DecodeRLP (self : Block) (s : Rlp) : Block × Option String :=
  match decodeExtblock s with
  | .error e => (self, some e)
  | .ok extblock =>
    ({ self with
      header := extblock.header
      uncles := extblock.uncles
      transactions := extblock.txs
      Td := extblock.td }, none)

/-- Model of `types.Blocks`. -/
abbrev Blocks := List Block

/-- Model of `types.BlockBy`: an injected comparator over blocks. -/
abbrev BlockBy := Block → Block → Bool

/-- Modelled from the spec: `BlockBy.Sort` delegates to the standard
library's `sort.Sort`, whose contract is a permutation of the input with no
adjacent pair out of order under the comparator (`!(by b2 b1)` holding for
every adjacent pair); realized by merge sort on that reflexive relation. -/
def BlockBy.Sort (self : BlockBy) (blocks : Blocks) : Blocks :=
  blocks.mergeSort (fun b1 b2 => !(self b2 b1))

/-- Source `types.Number`: the block-number comparator (`Cmp < 0` on the header
numbers). -/
def Number (b1 b2 : Block) : Bool :=
  b1.header.Number < b2.header.Number

/-- The transactions-root part of the derived-field sync invariant (spec
section 3): `header.TxHash` is the root digest of the current transaction
list. -/
def TxSynced (b : Block) : Prop :=
  b.header.TxHash = DeriveShaTxs b.transactions

/-- The receipts part of the sync invariant: `header.ReceiptHash` and
`header.Bloom` are derived from the current receipt list. -/
def ReceiptsSynced (b : Block) : Prop :=
  b.header.ReceiptHash = DeriveShaReceipts b.receipts ∧
  b.header.Bloom = CreateBloom b.receipts

/-- The uncles part of the sync invariant: `header.UncleHash` is the digest
of the canonical encoding of the current uncle list. -/
def UnclesSynced (b : Block) : Prop :=
  b.header.UncleHash = Sha3 (.list (b.uncles.map Header.RlpData))

/-- The full derived-field sync invariant over all four derived header
fields. -/
def Synced (b : Block) : Prop :=
  TxSynced b ∧ ReceiptsSynced b ∧ UnclesSynced b

/-- One call of the three list-replacing block mutators. -/
inductive BlockOp where
  | setTransactions (txs : Transactions)
  | setReceipts (rs : Receipts)
  | setUncles (us : List Header)
deriving Repr

/-- Dispatch of one mutator call on a block. -/
def Block.applyOp (b : Block) : BlockOp → Block
  | .setTransactions txs => b.SetTransactions txs
  | .setReceipts rs => b.SetReceipts rs
  | .setUncles us => b.SetUncles us

/-- A sequence of mutator calls, applied left to right. -/
def Block.applyOps (b : Block) (ops : List BlockOp) : Block :=
  ops.foldl Block.applyOp b

/-- An input stream matches the expected block shape when it is the
canonical encoding of some `{header, transactions, uncles}` triple,
optionally followed by a total-difficulty scalar (spec section 4.4). -/
def WellFormedBlockRlp (s : Rlp) : Prop :=
  (∃ (h : Header) (txs : Transactions) (us : List Header),
    s = Rlp.list [h.RlpData, txsRlp txs, unclesRlp us]) ∨
  (∃ (h : Header) (txs : Transactions) (us : List Header) (td : Nat),
    s = Rlp.list [h.RlpData, txsRlp txs, unclesRlp us, Rlp.nat td])

/-- An ideal-digest code is positive when its tag is. -/
theorem natPair_pos (a b : Nat) (ha : 0 < a) : 0 < Nat.pair a b := by
  unfold Nat.pair
  split <;> omega

/-- The transaction-root digest never equals the all-zero sentinel hash. -/
theorem deriveShaTxs_ne_zero (txs : Transactions) : DeriveShaTxs txs ≠ 0 :=
  (natPair_pos 4 _ (by decide)).ne'

/-- C2. Override precedence: a non-zero preset `HeaderHash` makes
`Block.Hash` return exactly that value regardless of the header, a zero one
makes it return the header's own digest, and `Block.HashNoNonce` is the
header's no-nonce digest in both cases. -/
theorem c2_override_precedence (b : Block) :
    (b.HeaderHash ≠ 0 → b.Hash = b.HeaderHash) ∧
    (b.HeaderHash = 0 → b.Hash = b.header.Hash) ∧
    b.HashNoNonce = b.header.HashNoNonce := by
  refine ⟨fun h => ?_, fun h => ?_, rfl⟩ <;> simp [Block.Hash, h]

/-- Witness for C2 at two concrete blocks, one with the override set to 7
and one with it unset. -/
theorem c2_override_precedence_witness :
    (Block.Hash ⟨7, 0, ⟨1, 2, 3, 4, 5, 6, 7, 8, 9, 10, 11, 12, "x", 13, 14⟩,
        [], [], none, [], 0⟩ = 7) ∧
    (Block.Hash ⟨0, 0, ⟨1, 2, 3, 4, 5, 6, 7, 8, 9, 10, 11, 12, "x", 13, 14⟩,
        [], [], none, [], 0⟩ =
      Header.Hash ⟨1, 2, 3, 4, 5, 6, 7, 8, 9, 10, 11, 12, "x", 13, 14⟩) :=
  ⟨(c2_override_precedence _).1 (by decide),
   (c2_override_precedence _).2.1 rfl⟩

/-- C5. Append equivalence: `AddTransaction` appends the transaction to the
list and sets the header's transaction root to the digest of the appended
list. -/
theorem c5_append_equivalence (b : Block) (t : Transaction) :
    (b.AddTransaction t).transactions = b.transactions ++ [t] ∧
    (b.AddTransaction t).header.TxHash = DeriveShaTxs (b.transactions ++ [t]) :=
  ⟨rfl, rfl⟩

/-- C10. Out-of-range indexed access returns nil: `GetTransaction` and
`GetUncle` return `none` at any index at or past the end of the respective
list, and the i-th element below the length. -/
theorem c10_indexed_access (b : Block) (i : Nat) :
    (b.transactions.length ≤ i → b.GetTransaction i = none) ∧
    (∀ h : i < b.transactions.length,
      b.GetTransaction i = some (b.transactions.get ⟨i, h⟩)) ∧
    (b.uncles.length ≤ i → b.GetUncle i = none) ∧
    (∀ h : i < b.uncles.length, b.GetUncle i = some (b.uncles.get ⟨i, h⟩)) := by
  refine ⟨fun h => ?_, fun h => ?_, fun h => ?_, fun h => ?_⟩ <;>
    simp [Block.GetTransaction, Block.GetUncle, Nat.not_lt.mpr h, h,
      List.getElem?_eq_getElem]

/-- Witness for C10 at a concrete one-transaction block, at an index past
the end and at index zero. -/
theorem c10_indexed_access_witness :
    (Block.GetTransaction ⟨0, 0, ⟨1, 2, 3, 4, 5, 6, 7, 8, 9, 10, 11, 12, "x",
        13, 14⟩, [], [⟨5⟩], none, [], 0⟩ 1 = none) ∧
    (Block.GetTransaction ⟨0, 0, ⟨1, 2, 3, 4, 5, 6, 7, 8, 9, 10, 11, 12, "x",
        13, 14⟩, [], [⟨5⟩], none, [], 0⟩ 0 = some ⟨5⟩) :=
  ⟨(c10_indexed_access _ 1).1 (by decide),
   (c10_indexed_access _ 0).2.1 (by decide)⟩

/-- C7 fails as stated: a block freshly built by `NewBlock` has the zero
hash in `header.TxHash`, not the root digest of the empty transaction
sequence — `NewBlock` never invokes the digest. Shown at concrete
arguments. -/
theorem c7_fresh_block_counterexample :
    (NewBlock 0 0 0 0 0 "" 0).transactions = [] ∧
    (NewBlock 0 0 0 0 0 "" 0).header.TxHash ≠ DeriveShaTxs [] := by
  exact ⟨rfl, by decide⟩

/-- C7 as amended: a block freshly built by `NewBlock` has an empty
transaction list and the zero hash (not the empty-sequence digest) in
`header.TxHash`; after `AddTransaction t1` the root is the digest of
`[t1]`, and after a further `AddTransaction t2` (with `t1 ≠ t2`) it is the
digest of `[t1, t2]`, which differs from both prior values. -/
theorem c7_fresh_block_scenario (p cb rt d non : Nat) (e : String) (tm : Nat)
    (t1 t2 : Transaction) (hne : t1 ≠ t2) :
    (NewBlock p cb rt d non e tm).transactions = [] ∧
    (NewBlock p cb rt d non e tm).header.TxHash = 0 ∧
    ((NewBlock p cb rt d non e tm).AddTransaction t1).header.TxHash =
      DeriveShaTxs [t1] ∧
    (((NewBlock p cb rt d non e tm).AddTransaction t1).AddTransaction t2).header.TxHash =
      DeriveShaTxs [t1, t2] ∧
    DeriveShaTxs [t1, t2] ≠ DeriveShaTxs [t1] ∧
    DeriveShaTxs [t1, t2] ≠ (0 : Hash) := by
  refine ⟨rfl, rfl, rfl, rfl, fun h => ?_, deriveShaTxs_ne_zero _⟩
  simp [DeriveShaTxs, natListEnc, Nat.pair_eq_pair] at h

/-- Witness for C7 at two concrete distinct transactions. -/
theorem c7_fresh_block_scenario_witness :
    ((NewBlock 1 2 3 4 5 "x" 6).AddTransaction ⟨1⟩).header.TxHash =
      DeriveShaTxs [⟨1⟩] ∧
    (((NewBlock 1 2 3 4 5 "x" 6).AddTransaction ⟨1⟩).AddTransaction ⟨2⟩).header.TxHash =
      DeriveShaTxs [⟨1⟩, ⟨2⟩] ∧
    DeriveShaTxs [⟨1⟩, ⟨2⟩] ≠ DeriveShaTxs [⟨1⟩] :=
  ⟨(c7_fresh_block_scenario 1 2 3 4 5 "x" 6 ⟨1⟩ ⟨2⟩ (by decide)).2.2.1,
   (c7_fresh_block_scenario 1 2 3 4 5 "x" 6 ⟨1⟩ ⟨2⟩ (by decide)).2.2.2.1,
   (c7_fresh_block_scenario 1 2 3 4 5 "x" 6 ⟨1⟩ ⟨2⟩ (by decide)).2.2.2.2.1⟩

/-- C1 fails as stated: a block whose header carries a transaction root not
matching its (empty) transaction list — as `NewBlockWithHeader` permits —
still has that stale root immediately after a `SetUncles` call returns;
`SetUncles` synchronizes only the uncle hash. -/
theorem c1_stale_txhash_after_setUncles :
    ((NewBlockWithHeader ⟨0, 0, 0, 0, DeriveShaTxs [⟨0⟩], 0, 0, 0, 0, 0, 0, 0,
        "", 0, 0⟩).SetUncles []).header.TxHash ≠
      DeriveShaTxs ((NewBlockWithHeader ⟨0, 0, 0, 0, DeriveShaTxs [⟨0⟩], 0, 0,
        0, 0, 0, 0, 0, "", 0, 0⟩).SetUncles []).transactions := by
  decide

/-- C1 as amended: each of `SetTransactions`, `SetReceipts` and `SetUncles`
synchronizes the derived header fields belonging to the list it replaces
before returning, and every one of these mutating calls preserves the
synchrony of the fields it does not own — hence no sequence of these calls
can make a synchronized derived field stale, and a block that is fully
synchronized stays so under any sequence of such calls. -/
theorem c1_mutators_sync_owned_fields :
    (∀ (b : Block) (txs : Transactions), TxSynced (b.SetTransactions txs)) ∧
    (∀ (b : Block) (rs : Receipts), ReceiptsSynced (b.SetReceipts rs)) ∧
    (∀ (b : Block) (us : List Header), UnclesSynced (b.SetUncles us)) ∧
    (∀ (b : Block) (op : BlockOp), Synced b → Synced (b.applyOp op)) ∧
    (∀ (b : Block) (ops : List BlockOp), Synced b → Synced (b.applyOps ops)) := by
  have hop : ∀ (b : Block) (op : BlockOp), Synced b → Synced (b.applyOp op) := by
    rintro b (⟨txs⟩ | ⟨rs⟩ | ⟨us⟩) ⟨htx, hrc, hun⟩
    · exact ⟨rfl, hrc, hun⟩
    · exact ⟨htx, ⟨rfl, rfl⟩, hun⟩
    · exact ⟨htx, hrc, rfl⟩
  refine ⟨fun b txs => rfl, fun b rs => ⟨rfl, rfl⟩, fun b us => rfl, hop,
    fun b ops => ?_⟩
  induction ops generalizing b with
  | nil => exact fun h => h
  | cons op ops ih => exact fun h => ih _ (hop b op h)

/-- Witness for C1 at a concrete fully-synchronized block and a concrete
call sequence. -/
theorem c1_mutators_sync_witness :
    Synced (((((NewBlockWithHeader ⟨0, 0, 0, 0, 0, 0, 0, 0, 0, 0, 0, 0, "", 0,
        0⟩).SetTransactions []).SetReceipts []).SetUncles []).applyOps
      [.setUncles [], .setReceipts [⟨1, 2⟩], .setTransactions [⟨9⟩]]) := by
  have hs : Synced ((((NewBlockWithHeader ⟨0, 0, 0, 0, 0, 0, 0, 0, 0, 0, 0, 0,
      "", 0, 0⟩).SetTransactions []).SetReceipts []).SetUncles []) :=
    ⟨rfl, ⟨rfl, rfl⟩, rfl⟩
  exact c1_mutators_sync_owned_fields.2.2.2.2 _ _ hs

/-- C3. Nonce independence: for two headers equal in all thirteen
always-present fields, the no-nonce digests coincide; and if the two
headers differ in `Nonce` or in `MixDigest`, the full digests differ (the
collision escape hatch of the claim is vacuous under the ideal collision-free
digest model). -/
theorem c3_nonce_independence (H1 H2 : Header)
    (h1 : H1.ParentHash = H2.ParentHash) (h2 : H1.UncleHash = H2.UncleHash)
    (h3 : H1.Coinbase = H2.Coinbase) (h4 : H1.Root = H2.Root)
    (h5 : H1.TxHash = H2.TxHash) (h6 : H1.ReceiptHash = H2.ReceiptHash)
    (h7 : H1.Bloom = H2.Bloom) (h8 : H1.Difficulty = H2.Difficulty)
    (h9 : H1.Number = H2.Number) (h10 : H1.GasLimit = H2.GasLimit)
    (h11 : H1.GasUsed = H2.GasUsed) (h12 : H1.Time = H2.Time)
    (h13 : H1.Extra = H2.Extra) :
    H1.HashNoNonce = H2.HashNoNonce ∧
    ((H1.Nonce ≠ H2.Nonce ∨ H1.MixDigest ≠ H2.MixDigest) →
      H1.Hash ≠ H2.Hash) := by
  constructor
  · simp [Header.HashNoNonce, Header.rlpData, h1, h2, h3, h4, h5, h6, h7, h8,
      h9, h10, h11, h12, h13]
  · intro hne heq
    simp [Header.Hash, Sha3, Header.rlpData, Rlp.enc, Nat.pair_eq_pair,
      h1, h2, h3, h4, h5, h6, h7, h8, h9, h10, h11, h12, h13] at heq
    rcases hne with hn | hm
    · exact hn (by simp_all)
    · exact hm (by simp_all)

/-- Witness for C3 at two concrete headers differing only in the nonce. -/
theorem c3_nonce_independence_witness :
    Header.HashNoNonce ⟨1, 2, 3, 4, 5, 6, 7, 8, 9, 10, 11, 12, "x", 13, 14⟩ =
      Header.HashNoNonce ⟨1, 2, 3, 4, 5, 6, 7, 8, 9, 10, 11, 12, "x", 13, 99⟩ ∧
    Header.Hash ⟨1, 2, 3, 4, 5, 6, 7, 8, 9, 10, 11, 12, "x", 13, 14⟩ ≠
      Header.Hash ⟨1, 2, 3, 4, 5, 6, 7, 8, 9, 10, 11, 12, "x", 13, 99⟩ := by
  have h := c3_nonce_independence
    ⟨1, 2, 3, 4, 5, 6, 7, 8, 9, 10, 11, 12, "x", 13, 14⟩
    ⟨1, 2, 3, 4, 5, 6, 7, 8, 9, 10, 11, 12, "x", 13, 99⟩
    rfl rfl rfl rfl rfl rfl rfl rfl rfl rfl rfl rfl rfl
  exact ⟨h.1, h.2 (Or.inl (by decide))⟩

/-- Decoding the canonical field list of a header recovers the header. -/
theorem decodeHeader_rlpData (h : Header) :
    decodeHeader h.RlpData = .ok h := by
  cases h
  rfl

/-- Decoding an encoded transaction list recovers the list. -/
theorem decodeTxList_map (txs : Transactions) :
    decodeTxList (txs.map fun t => .nat t.val) = .ok txs := by
  induction txs with
  | nil => rfl
  | cons t ts ih =>
    cases t
    simp only [List.map_cons, decodeTxList, decodeTx, ih]
    rfl

/-- Decoding an encoded uncle-header list recovers the list. -/
theorem decodeUncleList_map (us : List Header) :
    decodeUncleList (us.map Header.RlpData) = .ok us := by
  induction us with
  | nil => rfl
  | cons u us ih =>
    simp only [List.map_cons, decodeUncleList, decodeHeader_rlpData, ih]
    rfl

/-- C4. Optional total difficulty on decode: the three-element shape
`{header, transactions, uncles}` decodes with `Td` left unset, and the
four-element shape carrying a total-difficulty scalar decodes with `Td`
populated with exactly that value; both succeed (no error is reported). -/
theorem c4_optional_td_decode (b : Block) (h : Header) (txs : Transactions)
    (us : List Header) (td : Nat) :
    b.DecodeRLP (.list [h.RlpData, txsRlp txs, unclesRlp us]) =
      ({ b with header := h, uncles := us, transactions := txs, Td := none },
        none) ∧
    b.DecodeRLP (.list [h.RlpData, txsRlp txs, unclesRlp us, .nat td]) =
      ({ b with header := h, uncles := us, transactions := txs, Td := some td },
        none) := by
  constructor <;>
    · simp only [Block.DecodeRLP, decodeExtblock, txsRlp, unclesRlp,
        decodeHeader_rlpData, decodeTxList_map, decodeUncleList_map]
      rfl

/-- C6. Encode/decode round-trip: decoding the network form of any block
reproduces its header, transaction list and uncle list exactly with `Td`
unset, and decoding the storage form of a block whose total difficulty is
present additionally reproduces that value. -/
theorem c6_roundtrip (b b0 : Block) :
    b0.DecodeRLP b.RlpData =
      ({ b0 with header := b.header, uncles := b.uncles, transactions := b.transactions, Td := none },
        none) ∧
    (∀ d, b.Td = some d →
      b0.DecodeRLP b.RlpDataForStorage =
        ({ b0 with header := b.header, uncles := b.uncles, transactions := b.transactions, Td := some d },
          none)) := by
  constructor
  · simp only [Block.RlpData, Block.DecodeRLP, decodeExtblock, txsRlp,
      unclesRlp, decodeHeader_rlpData, decodeTxList_map, decodeUncleList_map]
    rfl
  · intro d hd
    simp only [Block.RlpDataForStorage, hd, Option.getD_some, Block.DecodeRLP,
      decodeExtblock, txsRlp, unclesRlp, decodeHeader_rlpData,
      decodeTxList_map, decodeUncleList_map]
    rfl

/-- Witness for C6: storage round-trip at a concrete block with a present
total difficulty. -/
theorem c6_roundtrip_witness :
    Block.DecodeRLP
      ⟨0, 0, ⟨1, 2, 3, 4, 5, 6, 7, 8, 9, 10, 11, 12, "y", 13, 14⟩, [], [],
        none, [], 0⟩
      (Block.RlpDataForStorage ⟨0, 0, ⟨1, 2, 3, 4, 5, 6, 7, 8, 9, 10, 11, 12,
        "x", 13, 14⟩, [⟨1, 2, 3, 4, 5, 6, 7, 8, 9, 10, 11, 12, "u", 13, 14⟩],
        [⟨7⟩], some 42, [⟨1, 2⟩], 3⟩) =
      (⟨0, 0, ⟨1, 2, 3, 4, 5, 6, 7, 8, 9, 10, 11, 12, "x", 13, 14⟩,
        [⟨1, 2, 3, 4, 5, 6, 7, 8, 9, 10, 11, 12, "u", 13, 14⟩], [⟨7⟩],
        some 42, [], 0⟩, none) :=
  (c6_roundtrip
    ⟨0, 0, ⟨1, 2, 3, 4, 5, 6, 7, 8, 9, 10, 11, 12, "x", 13, 14⟩,
      [⟨1, 2, 3, 4, 5, 6, 7, 8, 9, 10, 11, 12, "u", 13, 14⟩], [⟨7⟩],
      some 42, [⟨1, 2⟩], 3⟩
    ⟨0, 0, ⟨1, 2, 3, 4, 5, 6, 7, 8, 9, 10, 11, 12, "y", 13, 14⟩, [], [],
      none, [], 0⟩).2 42 rfl

/-- Decoder completeness for headers: a successful header decode means the
input was exactly that header's canonical field list. -/
theorem rlpData_of_decodeHeader {r : Rlp} {h : Header}
    (hd : decodeHeader r = .ok h) : r = h.RlpData := by
  unfold decodeHeader at hd
  split at hd
  · cases hd
    rfl
  · cases hd

/-- Decoder completeness for single transactions. -/
theorem nat_of_decodeTx {r : Rlp} {t : Transaction}
    (hd : decodeTx r = .ok t) : r = .nat t.val := by
  unfold decodeTx at hd
  split at hd
  · cases hd
    rfl
  · cases hd

/-- Computation rule: binding a decode error short-circuits. -/
theorem exceptBindError {ε α β : Type} (e : ε) (f : α → Except ε β) :
    ((Except.error e : Except ε α) >>= f) = Except.error e := rfl

/-- Computation rule: binding a decode success applies the continuation. -/
theorem exceptBindOk {ε α β : Type} (a : α) (f : α → Except ε β) :
    ((Except.ok a : Except ε α) >>= f) = f a := rfl

/-- Decoder completeness for transaction lists. -/
theorem map_of_decodeTxList {rs : List Rlp} {ts : Transactions}
    (hd : decodeTxList rs = .ok ts) : rs = ts.map fun t => .nat t.val := by
  induction rs generalizing ts with
  | nil =>
    cases hd
    rfl
  | cons r rs ih =>
    cases ht : decodeTx r with
    | error e => simp [decodeTxList, ht, exceptBindError] at hd
    | ok t =>
      cases hts : decodeTxList rs with
      | error e => simp [decodeTxList, ht, hts, exceptBindOk, exceptBindError] at hd
      | ok ts' =>
        simp only [decodeTxList, ht, hts] at hd
        cases hd
        simp [nat_of_decodeTx ht, ih hts]

/-- Decoder completeness for uncle lists. -/
theorem map_of_decodeUncleList {rs : List Rlp} {us : List Header}
    (hd : decodeUncleList rs = .ok us) : rs = us.map Header.RlpData := by
  induction rs generalizing us with
  | nil =>
    cases hd
    rfl
  | cons r rs ih =>
    cases hu : decodeHeader r with
    | error e => simp [decodeUncleList, hu, exceptBindError] at hd
    | ok u =>
      cases hus : decodeUncleList rs with
      | error e => simp [decodeUncleList, hu, hus, exceptBindOk, exceptBindError] at hd
      | ok us' =>
        simp only [decodeUncleList, hu, hus] at hd
        cases hd
        simp [rlpData_of_decodeHeader hu, ih hus]

/-- Decoder completeness for the whole block stream: a successful
`extblock` decode means the input matched the expected shape. -/
theorem wellFormed_of_decodeExtblock {s : Rlp} {e : Extblock}
    (hd : decodeExtblock s = .ok e) : WellFormedBlockRlp s := by
  unfold decodeExtblock at hd
  split at hd
  case h_1 h txs us =>
    cases hh : decodeHeader h with
    | error er => simp [hh, exceptBindError] at hd
    | ok H =>
      cases txs with
      | nat n => simp [hh, exceptBindOk, exceptBindError] at hd
      | str st => simp [hh, exceptBindOk, exceptBindError] at hd
      | list trs =>
        cases ht : decodeTxList trs with
        | error er => simp [hh, ht, exceptBindOk, exceptBindError] at hd
        | ok ts =>
          cases us with
          | nat n => simp [hh, ht, exceptBindOk, exceptBindError] at hd
          | str st => simp [hh, ht, exceptBindOk, exceptBindError] at hd
          | list urs =>
            cases hu : decodeUncleList urs with
            | error er => simp [hh, ht, hu, exceptBindOk, exceptBindError] at hd
            | ok uls =>
              refine Or.inl ⟨H, ts, uls, ?_⟩
              simp [rlpData_of_decodeHeader hh, map_of_decodeTxList ht,
                map_of_decodeUncleList hu, txsRlp, unclesRlp]
  case h_2 h txs us td =>
    cases hh : decodeHeader h with
    | error er => simp [hh, exceptBindError] at hd
    | ok H =>
      cases txs with
      | nat n => simp [hh, exceptBindOk, exceptBindError] at hd
      | str st => simp [hh, exceptBindOk, exceptBindError] at hd
      | list trs =>
        cases ht : decodeTxList trs with
        | error er => simp [hh, ht, exceptBindOk, exceptBindError] at hd
        | ok ts =>
          cases us with
          | nat n => simp [hh, ht, exceptBindOk, exceptBindError] at hd
          | str st => simp [hh, ht, exceptBindOk, exceptBindError] at hd
          | list urs =>
            cases hu : decodeUncleList urs with
            | error er => simp [hh, ht, hu, exceptBindOk, exceptBindError] at hd
            | ok uls =>
              refine Or.inr ⟨H, ts, uls, td, ?_⟩
              simp [rlpData_of_decodeHeader hh, map_of_decodeTxList ht,
                map_of_decodeUncleList hu, txsRlp, unclesRlp]
  case h_3 => cases hd

/-- C8. Decode atomicity: on any input stream that does not match the
expected `{header, transactions, uncles, [totalDifficulty]}` shape,
`DecodeRLP` reports a malformed-encoding error and leaves the receiving
block — header, uncle list, transaction list and `Td` included — exactly
as it was; no partially-populated block is produced. -/
theorem c8_decode_atomicity (b : Block) (s : Rlp)
    (hmal : ¬ WellFormedBlockRlp s) :
    (b.DecodeRLP s).1 = b ∧ ∃ e, (b.DecodeRLP s).2 = some e := by
  cases hde : decodeExtblock s with
  | error e => simp [Block.DecodeRLP, hde]
  | ok ext => exact absurd (wellFormed_of_decodeExtblock hde) hmal

/-- Witness for C8 at a concrete block and a concrete malformed stream (a
bare scalar). -/
theorem c8_decode_atomicity_witness :
    (Block.DecodeRLP ⟨0, 0, ⟨1, 2, 3, 4, 5, 6, 7, 8, 9, 10, 11, 12, "x", 13,
        14⟩, [], [⟨5⟩], some 3, [], 0⟩ (Rlp.nat 0)).1 =
      ⟨0, 0, ⟨1, 2, 3, 4, 5, 6, 7, 8, 9, 10, 11, 12, "x", 13, 14⟩, [], [⟨5⟩],
        some 3, [], 0⟩ ∧
    ∃ e, (Block.DecodeRLP ⟨0, 0, ⟨1, 2, 3, 4, 5, 6, 7, 8, 9, 10, 11, 12, "x",
        13, 14⟩, [], [⟨5⟩], some 3, [], 0⟩ (Rlp.nat 0)).2 = some e :=
  c8_decode_atomicity _ (Rlp.nat 0) (by
    rintro (⟨h, txs, us, heq⟩ | ⟨h, txs, us, td, heq⟩) <;> simp at heq)

/-- C9. Sort ordering: sorting any finite block sequence with the `Number`
comparator through `BlockBy.Sort` yields a permutation of the input whose
adjacent pairs carry non-decreasing header numbers. -/
theorem c9_sort_by_number (blocks : Blocks) :
    (BlockBy.Sort Number blocks).Perm blocks ∧
    (BlockBy.Sort Number blocks).Chain'
      (fun b1 b2 => b1.header.Number ≤ b2.header.Number) := by
  constructor
  · exact List.mergeSort_perm blocks _
  · have htrans : ∀ a b c : Block, (!(Number b a)) → (!(Number c b)) →
        (!(Number c a)) := by
      intro a b c hab hbc
      simp only [Number, Bool.not_eq_true', decide_eq_false_iff_not,
        Nat.not_lt] at *
      omega
    have htotal : ∀ a b : Block, ((!(Number b a)) || (!(Number a b))) := by
      intro a b
      simp only [Number, Bool.not_eq_true', decide_eq_false_iff_not,
        Nat.not_lt, Bool.or_eq_true] at *
      omega
    have hp : (List.mergeSort blocks fun b1 b2 => !(Number b2 b1)).Pairwise
        (fun b1 b2 => (!(Number b2 b1)) = true) :=
      List.sorted_mergeSort htrans htotal blocks
    refine List.Chain'.imp ?_ hp.chain'
    intro a b hab
    simp only [Number, Bool.not_eq_true', decide_eq_false_iff_not,
      Nat.not_lt] at hab
    exact hab

end Geth
